import Mathlib

/-!
Shallow embedding of the slot-availability / booking core of the
`republica-api` server (`src/server.js`): event classification,
slot-template generation, minute-of-day conversion, the availability
engine and the booking decision, together with proofs settling the
frozen claims about them.

Modelling conventions:
* JavaScript strings are Lean `String`s; `String.prototype.includes`
  becomes `containsSub`, `toLowerCase` becomes `jsToLower` (ASCII range).
* JavaScript `Set` of court numbers becomes `Finset ℕ` (only `add`,
  `has` and `size` are used by the source, all order-independent).
* Small JavaScript numbers (minutes, counts, court ids) become `ℕ`;
  the source's `Math.max(0, a - b)` is `ℕ` truncated subtraction.
* The `Intl.DateTimeFormat` timezone-conversion branch of
  `isoToMinutes` consults the IANA timezone database and is not
  shallowly embeddable; it is abstracted as an oracle parameter
  `tz : String → Option (ℕ × ℕ)` returning the converted hour/minute,
  with `none` modelling the `catch` path (invalid date → exception).
  All theorems quantify over this oracle.
-/

namespace RepublicaAPI

/-- Lower-cases a string character by character, modelling JavaScript
`String.prototype.toLowerCase` on the ASCII range (all marker and
keyword strings of the source are ASCII / already lower-case). -/
def jsToLower (s : String) : String := String.mk (s.data.map Char.toLower)

/-- Structural split on a separator character, with the semantics of
JavaScript `String.prototype.split(sep)` for a one-character
separator: `splitOnChar '-' "a-b".data = ["a".data, "b".data]`,
`splitOnChar '-' [] = [[]]`. -/
def splitOnChar (sep : Char) : List Char → List (List Char)
  | [] => [[]]
  | c :: rest =>
    let r := splitOnChar sep rest
    if c == sep then [] :: r
    else
      match r with
      | h :: t => (c :: h) :: t
      | [] => [[c]]

/-- Numeric value of a decimal digit character. -/
def digitVal (c : Char) : ℕ := c.toNat - 48

/-- Decimal reading of a character list, modelling JavaScript
`Number(s)` on the inputs that occur here: a non-empty all-digit
string yields its value, anything else yields `none` (JavaScript
`NaN`; the exotic numeric forms `Number` also accepts — signs,
decimals, exponents, hex — never appear in the validated fields this
is applied to). -/
def digitsToNat? (l : List Char) : Option ℕ :=
  if !l.isEmpty && l.all Char.isDigit then
    some (l.foldl (fun acc c => acc * 10 + digitVal c) 0)
  else none


/-- Substring test, modelling JavaScript `String.prototype.includes`. -/
def containsSub (hay pat : String) : Bool :=
  hay.toList.tails.any (fun t => pat.toList.isPrefixOf t)

/-- Raw calendar event as consumed by the core (`listEventsForDay`
maps API items to exactly these fields, defaulting missing text fields
to `''`).  `endTime` models the source's `ev.end` (`end` is a Lean
keyword). -/
structure RawEvent where
  summary : String
  description : String
  location : String
  start : String
  endTime : String
deriving DecidableEq, Repr

/-- All-day test used throughout the source:
`String(ev.start).length <= 10` (a date-only start). -/
def isAllDay (ev : RawEvent) : Bool := ev.start.length ≤ 10

/-- Classification verdict kind (`cls.kind` in the source). -/
inductive VerdictKind where
  | known
  | unknownSingle
deriving DecidableEq, Repr

/-- Classification verdict: the object
`{ kind, courts, blockBoth }` returned by `classifyEventToCourts`. -/
structure Verdict where
  kind : VerdictKind
  courts : List ℕ
  blockBoth : Bool
deriving DecidableEq, Repr

/-- One entry of the keyword map.  The source stores a regex source
string and compiles it with `new RegExp(pattern, 'i')`; here a rule
carries its compiled test directly (a total boolean predicate on the
already lower-cased text), plus the configured court number. -/
structure KeywordRule where
  test : String → Bool
  court : ℕ

/-- JavaScript regex line terminators (characters not matched by `.`). -/
def isLineTerm (c : Char) : Bool :=
  c == '\n' || c == '\r' || c == '\u2028' || c == '\u2029'

/-- JavaScript regex `\s` whitespace class (the members that can occur
here; the full class also contains further Unicode space separators). -/
def jsSpace (c : Char) : Bool :=
  c == ' ' || c == '\t' || c == '\n' || c == '\x0b' || c == '\x0c' ||
  c == '\r' || c == '\u00a0' || c == '\u1680' ||
  (0x2000 ≤ c.toNat && c.toNat ≤ 0x200a) ||
  c == '\u2028' || c == '\u2029' || c == '\u202f' || c == '\u205f' ||
  c == '\u3000' || c == '\ufeff'

/-- JavaScript regex `\w` word character (`[A-Za-z0-9_]`). -/
def isWordChar (c : Char) : Bool := c.isAlphanum || c == '_'

/-- Structural model of JavaScript `String.prototype.trim` (leading
and trailing whitespace removed). -/
def jsTrim (s : String) : String :=
  String.mk (((s.data.dropWhile jsSpace).reverse.dropWhile jsSpace).reverse)

/-- Compiled form of the default rule pattern
`futevolei|futvolei|futev[oó]lei`: unanchored alternation of the three
literal spellings. -/
def futeMatch (t : String) : Bool :=
  containsSub t "futevolei" || containsSub t "futvolei" || containsSub t "futevólei"

/-- Helper for `voleiMatch`: the part of a character list before the
first line terminator (the reach of `.*` in a JavaScript regex). -/
def lineHead (l : List Char) : List Char := l.takeWhile (fun c => !isLineTerm c)

/-- Compiled form of the default rule pattern `v[oó]lei(?!.*fute)`:
some occurrence of `volei`/`vólei` whose remaining suffix does not
contain `fute` before a line terminator. -/
def voleiMatch (t : String) : Bool :=
  t.toList.tails.any (fun suf =>
    ("volei".toList.isPrefixOf suf || "vólei".toList.isPrefixOf suf) &&
      !(lineHead (suf.drop 5)).tails.any (fun r => "fute".toList.isPrefixOf r))

/-- Scanner for the `\bbt\b` half of the third default rule: an
occurrence of `bt` with a word boundary on both sides.  The first
argument is the character preceding the current position (`none` at
the start of the string). -/
def btWordScan : Option Char → List Char → Bool
  | _, [] => false
  | prev, c :: rest =>
    (match c :: rest with
      | 'b' :: 't' :: after =>
        (match prev with
          | none => true
          | some p => !isWordChar p) &&
        (match after with
          | [] => true
          | a :: _ => !isWordChar a)
      | _ => false) ||
    btWordScan (some c) rest

/-- Compiled form of the default rule pattern `beach\s*tennis|\bbt\b`. -/
def btMatch (t : String) : Bool :=
  t.toList.tails.any (fun suf =>
    "beach".toList.isPrefixOf suf &&
      "tennis".toList.isPrefixOf ((suf.drop 5).dropWhile jsSpace)) ||
  btWordScan none t.toList

/-- The source's `DEFAULT_KEYWORD_MAP` (module-level default; an
environment override replaces it wholesale, so the classifier below is
parameterised by the rule list and this value instantiates the
default). -/
def DEFAULT_KEYWORD_MAP : List KeywordRule :=
  [⟨futeMatch, 1⟩, ⟨voleiMatch, 2⟩, ⟨btMatch, 2⟩]

/-- Concatenated, lower-cased event text:
`` `${ev.summary || ''} ${ev.description || ''} ${ev.location || ''}`.toLowerCase() ``. -/
def eventText (ev : RawEvent) : String :=
  jsToLower (ev.summary ++ " " ++ ev.description ++ " " ++ ev.location)

/-- Court-1 marker test of `classifyEventToCourts`:
`text.includes('quadra 1') || text.includes('q1') || text.includes('quadra1')`. -/
def hasQ1 (text : String) : Bool :=
  containsSub text "quadra 1" || containsSub text "q1" || containsSub text "quadra1"

/-- Court-2 marker test of `classifyEventToCourts`. -/
def hasQ2 (text : String) : Bool :=
  containsSub text "quadra 2" || containsSub text "q2" || containsSub text "quadra2"

/-- The classifier `classifyEventToCourts(ev)`.  Marker branches first,
then the first keyword rule whose test matches and whose court number
is 1 or 2 (a matching rule with any other court number is skipped, as
in the source's `if(c === 1 || c === 2)` guard), else `unknownSingle`. -/
def classifyEventToCourts (rules : List KeywordRule) (ev : RawEvent) : Verdict :=
  let text := eventText ev
  if hasQ1 text && !hasQ2 text then ⟨.known, [1], false⟩
  else if hasQ2 text && !hasQ1 text then ⟨.known, [2], false⟩
  else if hasQ1 text && hasQ2 text then ⟨.known, [1, 2], true⟩
  else
    match rules.find? (fun r => r.test text && (r.court == 1 || r.court == 2)) with
    | some r => ⟨.known, [r.court], false⟩
    | none => ⟨.unknownSingle, [], false⟩

/-- Day-of-week (0 = Sunday … 6 = Saturday) of a Gregorian civil date,
as produced by `new Date(Date.UTC(y, m-1, d, 12)).getUTCDay()` (the
noon anchor cannot shift the UTC day).  Standard civil-calendar day
count anchored at 1970-01-01 = Thursday = 4. -/
def dayOfWeek (y m d : ℕ) : ℕ :=
  let y2 := if m ≤ 2 then y - 1 else y
  let mp := if m ≤ 2 then m + 9 else m - 3
  let doy := (153 * mp + 2) / 5 + d - 1
  let days := y2 * 365 + y2 / 4 - y2 / 100 + y2 / 400 + doy
  (days + 3) % 7

/-- The source's `isWeekend(dateStr)`: split on `-`, read the first
three numeric fields, test for Saturday/Sunday.  Non-numeric fields
make the JavaScript day-of-week `NaN`, so the comparison with 0/6 is
false; that path is the final `false` here. -/
def isWeekend (dateStr : String) : Bool :=
  match splitOnChar '-' dateStr.data with
  | y :: m :: d :: _ =>
    match digitsToNat? y, digitsToNat? m, digitsToNat? d with
    | some yn, some mn, some dn =>
      let dow := dayOfWeek yn mn dn
      dow == 0 || dow == 6
    | _, _, _ => false
  | _ => false

/-- The source's `pad(n)`: `String(n).padStart(2, '0')`. -/
def pad (n : ℕ) : String := if n < 10 then "0" ++ toString n else toString n

/-- One generated slot: the object `{ start, end }` of `generateSlots`
(`HH:MM` strings).  `endTime` models the `end` field. -/
structure Slot where
  start : String
  endTime : String
deriving DecidableEq, Repr

/-- The slot built from a start minute `t` and a duration, exactly as
the loop body of `generateSlots` formats it. -/
def slotOf (t durationMinutes : ℕ) : Slot :=
  { start := pad (t / 60) ++ ":" ++ pad (t % 60),
    endTime := pad ((t + durationMinutes) / 60) ++ ":" ++ pad ((t + durationMinutes) % 60) }

/-- The source's `generateSlots(dateISO, durationMinutes)`:
weekday window 17:00–23:00, weekend window 09:00–19:00, hourly start
steps, last start bounded by `endHour*60 - durationMinutes`.  The
`for(let t = startHour*60; t <= lastStart; t += 60)` loop is rendered
as a map over the explicit list of its iteration indices. -/
def generateSlots (dateISO : String) (durationMinutes : ℕ) : List Slot :=
  let weekend := isWeekend dateISO
  let startHour := if weekend then 9 else 17
  let endHour := if weekend then 19 else 23
  let lastStart := endHour * 60 - durationMinutes
  let first := startHour * 60
  let n := if first ≤ lastStart then (lastStart - first) / 60 + 1 else 0
  (List.range n).map (fun k => slotOf (first + 60 * k) durationMinutes)

/-- The source's `overlaps(aStart, aEnd, bStart, bEnd)`. -/
def overlaps (aStart aEnd bStart bEnd : ℕ) : Bool :=
  decide (aStart < bEnd) && decide (bStart < aEnd)

/-- Re-parse of an `HH:MM` string as done at every use site:
`Number(s.split(':')[0]) * 60 + Number(s.split(':')[1])`.  Only ever
applied to strings containing `:` with numeric fields (validated
request starts and generated template slots), so the fallback arms for
strings JavaScript would turn into `NaN` are unreachable at the call
sites. -/
def hmToMinutes (s : String) : ℕ :=
  match splitOnChar ':' s.data with
  | a :: b :: _ => (digitsToNat? a).getD 0 * 60 + (digitsToNat? b).getD 0
  | _ => 0

/-- Length (5 or 6) of a trailing numeric UTC offset, i.e. of a match
of `[+-]\d{2}:?\d{2}$`: either `[+-]dd:dd` or `[+-]dddd` at the very
end of the character list.  The two forms are mutually exclusive
(position `n-4` is `:` in one and a digit in the other). -/
def offsetSuffixLen (l : List Char) : Option ℕ :=
  match l.reverse with
  | b2 :: b1 :: c :: a2 :: a1 :: rest =>
    if c == ':' then
      match rest with
      | s :: _ =>
        if (s == '+' || s == '-') && a1.isDigit && a2.isDigit && b1.isDigit && b2.isDigit
        then some 6 else none
      | [] => none
    else
      if (a1 == '+' || a1 == '-') && a2.isDigit && c.isDigit && b1.isDigit && b2.isDigit
      then some 5 else none
  | _ => none

/-- Left-to-right scan for the leftmost `T\d\d:\d\d` occurrence whose
remaining suffix (the span of `.*`, which cannot cross a line
terminator) is line-terminator free; returns its hour/minute fields.
Applied to the string with the trailing offset removed, this is the
capture of `/T(\d{2}):(\d{2}).*([+-]\d{2}:?\d{2})$/`. -/
def offsetTScan : List Char → Option (ℕ × ℕ)
  | [] => none
  | c :: rest =>
    match c :: rest with
    | 'T' :: h1 :: h2 :: ':' :: m1 :: m2 :: after =>
      if h1.isDigit && h2.isDigit && m1.isDigit && m2.isDigit &&
          after.all (fun a => !isLineTerm a) then
        some (digitVal h1 * 10 + digitVal h2, digitVal m1 * 10 + digitVal m2)
      else offsetTScan rest
    | _ => offsetTScan rest

/-- Hour/minute fields of the offset-form regex
`/T(\d{2}):(\d{2}).*([+-]\d{2}:?\d{2})$/` applied to `iso`, when it
matches. -/
def offsetMatch (iso : String) : Option (ℕ × ℕ) :=
  let l := iso.toList
  match offsetSuffixLen l with
  | some k => offsetTScan (l.take (l.length - k))
  | none => none

/-- Left-to-right scan for the fallback regex `/T(\d{2}):(\d{2})/`. -/
def fallbackHM : List Char → Option (ℕ × ℕ)
  | [] => none
  | c :: rest =>
    match c :: rest with
    | 'T' :: h1 :: h2 :: ':' :: m1 :: m2 :: _ =>
      if h1.isDigit && h2.isDigit && m1.isDigit && m2.isDigit then
        some (digitVal h1 * 10 + digitVal h2, digitVal m1 * 10 + digitVal m2)
      else fallbackHM rest
    | _ => fallbackHM rest

/-- The source's `isoToMinutes(iso)`.  First the explicit-offset regex
(fields read directly from the string); otherwise the
`Intl.DateTimeFormat` conversion through the venue timezone, abstracted
as the oracle `tz` (`none` = the branch throws, e.g. invalid date);
otherwise the permissive `/T(\d{2}):(\d{2})/` fallback, else 0. -/
def isoToMinutes (tz : String → Option (ℕ × ℕ)) (iso : String) : ℕ :=
  match offsetMatch iso with
  | some (h, m) => h * 60 + m
  | none =>
    match tz iso with
    | some (h, m) => h * 60 + m
    | none =>
      match fallbackHM iso.toList with
      | some (h, m) => h * 60 + m
      | none => 0

/-- Timezone oracle for concrete computations in which the
`Intl.DateTimeFormat` branch is never reached or always throws. -/
def tzNone : String → Option (ℕ × ℕ) := fun _ => none

/-- Accumulation of a known verdict's court list into the busy set:
`cls.courts.forEach(c => busyKnown.add(c))`. -/
def insertCourts (b : Finset ℕ) (cs : List ℕ) : Finset ℕ :=
  cs.foldl (fun a c => insert c a) b

/-- The per-slot event loop of `computeAvailability`: walks the day's
events carrying the busy set and the unknown count; an all-day event
or an overlapping `blockBoth` verdict sets the state to
`({1,2}, 0)` and breaks (nothing after the `break` can change it). -/
def scanSlotEvents (rules : List KeywordRule) (tz : String → Option (ℕ × ℕ))
    (sMin eMin : ℕ) : List RawEvent → Finset ℕ → ℕ → Finset ℕ × ℕ
  | [], busy, unk => (busy, unk)
  | ev :: rest, busy, unk =>
    if isAllDay ev then ({1, 2}, 0)
    else
      let evStartMin := isoToMinutes tz ev.start
      let evEndMin := isoToMinutes tz ev.endTime
      if overlaps sMin eMin evStartMin evEndMin then
        let cls := classifyEventToCourts rules ev
        if cls.blockBoth then ({1, 2}, 0)
        else
          match cls.kind with
          | .known => scanSlotEvents rules tz sMin eMin rest (insertCourts busy cls.courts) unk
          | .unknownSingle => scanSlotEvents rules tz sMin eMin rest busy (unk + 1)
      else scanSlotEvents rules tz sMin eMin rest busy unk

/-- The tail arithmetic of the per-slot loop:
`remaining = max(0, 2 - busyKnown.size)`,
`consumes = min(unknownCount, remaining)`,
`availableCourts = max(0, remaining - consumes)` (the `max(0, ·)`
clamps are `ℕ` truncated subtraction). -/
def availFromScan (p : Finset ℕ × ℕ) : ℕ :=
  let remaining := 2 - p.1.card
  remaining - min p.2 remaining

/-- One annotated slot of the availability output:
`{ start, end, availableCourts }`. -/
structure SlotAvail where
  start : String
  endTime : String
  availableCourts : ℕ
deriving DecidableEq, Repr

/-- The source's `computeAvailability(events, duration, date)`.  The
initial `availableCourts: 2` is overwritten unconditionally by the
loop's final assignment, so only the final value appears here. -/
def computeAvailability (rules : List KeywordRule) (tz : String → Option (ℕ × ℕ))
    (events : List RawEvent) (duration : ℕ) (date : String) : List SlotAvail :=
  (generateSlots date duration).map (fun s =>
    let slotStartMin := hmToMinutes s.start
    let slotEndMin := hmToMinutes s.endTime
    { start := s.start, endTime := s.endTime,
      availableCourts := availFromScan (scanSlotEvents rules tz slotStartMin slotEndMin events ∅ 0) })

/-- Validation regex `^\d{4}-\d{2}-\d{2}$` for the `date` field. -/
def dateValid (s : String) : Bool :=
  match s.toList with
  | [y1, y2, y3, y4, s1, m1, m2, s2, d1, d2] =>
    y1.isDigit && y2.isDigit && y3.isDigit && y4.isDigit && s1 == '-' &&
    m1.isDigit && m2.isDigit && s2 == '-' && d1.isDigit && d2.isDigit
  | _ => false

/-- Validation regex `^\d{2}:\d{2}$` for the `start` field. -/
def startValid (s : String) : Bool :=
  match s.toList with
  | [h1, h2, c, m1, m2] => h1.isDigit && h2.isDigit && c == ':' && m1.isDigit && m2.isDigit
  | _ => false

/-- The request's computed end string:
`` `${pad(endH)}:${pad(endM)}` `` with `endMin = startMin + dur`. -/
def requestEndStr (start : String) (dur : ℕ) : String :=
  let endMin := hmToMinutes start + dur
  pad (endMin / 60) ++ ":" ++ pad (endMin % 60)

/-- The booking handler's `slotEvents` filter: all-day events always
pass, timed events pass when they overlap the requested interval. -/
def bookSlotEvents (tz : String → Option (ℕ × ℕ)) (startMin endMin : ℕ)
    (events : List RawEvent) : List RawEvent :=
  events.filter (fun ev =>
    if isAllDay ev then true
    else overlaps startMin endMin (isoToMinutes tz ev.start) (isoToMinutes tz ev.endTime))

/-- The booking handler's accumulated `busyKnown` set over the slot's
events (the `blockBoth` early return is handled separately before this
is consulted). -/
def knownFold (rules : List KeywordRule) (evs : List RawEvent) : Finset ℕ :=
  evs.foldl (fun acc ev =>
    let cls := classifyEventToCourts rules ev
    match cls.kind with
    | .known => insertCourts acc cls.courts
    | .unknownSingle => acc) ∅

/-- The booking handler's accumulated `unknownCount`. -/
def unknownCountFold (rules : List KeywordRule) (evs : List RawEvent) : ℕ :=
  (evs.filter (fun ev =>
    match (classifyEventToCourts rules ev).kind with
    | .known => false
    | .unknownSingle => true)).length

/-- Outcome of the booking decision, mirroring the handler's distinct
responses: the three rejection shapes (HTTP 400 validation errors, the
409 `indisponível` conflict, the 409 `lotado` capacity rejection) and
the success payload (chosen court, echoed start, computed end). -/
inductive BookResult where
  | validationError (msg : String)
  | unavailable (msg : String)
  | fullyBooked (msg : String)
  | booked (court : ℕ) (start : String) (endTime : String)
deriving DecidableEq, Repr

/-- Constructor test for validation rejections (HTTP 400 responses). -/
def isValidationError : BookResult → Bool
  | .validationError _ => true
  | _ => false

/-- The pure core of `app.post('/api/book')`: field validation,
slot-template membership, conflict checks against the day's events,
capacity check and court choice.  The calendar fetch/insert
side-effects around it are the collaborator boundary; `events` is what
`listEventsForDay(date)` returned. -/
def bookCore (rules : List KeywordRule) (tz : String → Option (ℕ × ℕ))
    (date start : String) (dur : ℕ) (name phone : String)
    (events : List RawEvent) : BookResult :=
  if !dateValid date then .validationError "date inválida (YYYY-MM-DD)"
  else if !startValid start then .validationError "start inválido (HH:MM)"
  else if !(dur == 60 || dur == 120) then .validationError "duration inválida (60 ou 120)"
  else if jsTrim name == "" || jsTrim phone == "" then .validationError "name e phone são obrigatórios"
  else
    let startMin := hmToMinutes start
    let endMin := startMin + dur
    let endStr := requestEndStr start dur
    if !((generateSlots date dur).any (fun s => s.start == start && s.endTime == endStr)) then
      .validationError "Horário inválido para esse dia."
    else
      let slotEvents := bookSlotEvents tz startMin endMin events
      if slotEvents.any isAllDay then .unavailable "Esse horário está indisponível."
      else if slotEvents.any (fun ev => (classifyEventToCourts rules ev).blockBoth) then
        .unavailable "Esse horário está indisponível."
      else
        let busyKnown := knownFold rules slotEvents
        let unknownCount := unknownCountFold rules slotEvents
        if 2 ≤ min 2 (busyKnown.card + unknownCount) then
          .fullyBooked "Esse horário está lotado (2 quadras ocupadas)."
        else
          let freeCourts := [1, 2].filter (fun c => decide (c ∉ busyKnown))
          let chosen := freeCourts.headD 1
          .booked chosen start endStr

/-- Overlapping-events filter used to state the availability claims:
the events of the day whose `[start,end)` interval (as read by
`isoToMinutes`) overlaps the given slot. -/
def overlapEvents (tz : String → Option (ℕ × ℕ)) (sMin eMin : ℕ)
    (events : List RawEvent) : List RawEvent :=
  events.filter (fun ev =>
    overlaps sMin eMin (isoToMinutes tz ev.start) (isoToMinutes tz ev.endTime))

/-- Union of the court sets of the `known` verdicts of a list of
events (the `knownOccupied` set of the specification). -/
def knownUnion (rules : List KeywordRule) : List RawEvent → Finset ℕ
  | [] => ∅
  | ev :: rest =>
    let cls := classifyEventToCourts rules ev
    (match cls.kind with
      | .known => cls.courts.toFinset
      | .unknownSingle => ∅) ∪ knownUnion rules rest

/-- Number of events classified `unknownSingle`. -/
def unknownCountOf (rules : List KeywordRule) (evs : List RawEvent) : ℕ :=
  evs.countP (fun ev =>
    match (classifyEventToCourts rules ev).kind with
    | .known => false
    | .unknownSingle => true)

/-- Concrete event with no court marker and no keyword match
(classified `unknownSingle`), 18:00–19:00 with explicit offset. -/
def evA : RawEvent :=
  ⟨"aula", "", "", "2026-01-29T18:00:00-03:00", "2026-01-29T19:00:00-03:00"⟩

/-- Second concrete `unknownSingle` event in the same 18:00–19:00 slot. -/
def evB : RawEvent :=
  ⟨"treino", "", "", "2026-01-29T18:00:00-03:00", "2026-01-29T19:00:00-03:00"⟩

/-- Concrete all-day event (date-only start, length 10). -/
def evD : RawEvent := ⟨"manutenção", "", "", "2026-01-29", "2026-01-30"⟩

/-- Concrete event carrying an explicit court-1 marker. -/
def evQ1 : RawEvent := ⟨"jogo quadra 1", "", "", "", ""⟩

/-- Specification-side per-slot availability formula:
`remaining = max(0, 2 - |knownOccupied|)` over the overlapping events,
then `availableCourts = remaining - min(unknownCount, remaining)`,
clamped at 0 (the clamps are `ℕ` truncated subtraction). -/
def specSlotAvail (rules : List KeywordRule) (tz : String → Option (ℕ × ℕ))
    (sMin eMin : ℕ) (events : List RawEvent) : ℕ :=
  let ovl := overlapEvents tz sMin eMin events
  let remaining := 2 - (knownUnion rules ovl).card
  remaining - min (unknownCountOf rules ovl) remaining

/-- Follows the spec's words for C9: a timestamp "carries an explicit
numeric UTC offset (e.g. trailing `-03:00`)" — the string ends with a
numeric UTC offset. -/
def specCarriesOffset (s : String) : Bool := (offsetSuffixLen s.data).isSome

/-- Follows the spec's words for C9: "the first `HH:MM` pattern found
in the string" — a bare two-digit/colon/two-digit scan with no
requirement of a leading `T`. -/
def specFirstBareHM : List Char → Option (ℕ × ℕ)
  | [] => none
  | c :: rest =>
    match c :: rest with
    | h1 :: h2 :: ':' :: m1 :: m2 :: _ =>
      if h1.isDigit && h2.isDigit && m1.isDigit && m2.isDigit then
        some (digitVal h1 * 10 + digitVal h2, digitVal m1 * 10 + digitVal m2)
      else specFirstBareHM rest
    | _ => specFirstBareHM rest

/-- The slot list produced by a start-of-window / end-of-window pair in
minutes; `generateSlots date dur` is definitionally
`slotsFrom (startHour*60) (endHour*60) dur` for the window of `date`
(proof infrastructure for the template claims). -/
def slotsFrom (first endv dur : ℕ) : List Slot :=
  let lastStart := endv - dur
  let n := if first ≤ lastStart then (lastStart - first) / 60 + 1 else 0
  (List.range n).map (fun k => slotOf (first + 60 * k) dur)

/-!  Helper lemmas about the embedding.  -/

theorem insertCourts_eq_union (cs : List ℕ) : ∀ b : Finset ℕ, insertCourts b cs = b ∪ cs.toFinset := by
  induction cs with
  | nil => intro b; simp [insertCourts]
  | cons c cs ih =>
    intro b
    have h := ih (insert c b)
    simp only [insertCourts, List.foldl_cons] at h ⊢
    rw [h, List.toFinset_cons, Finset.insert_union, Finset.union_insert]

theorem availFromScan_eq (b : Finset ℕ) (u : ℕ) :
    availFromScan (b, u) = 2 - b.card - u := by
  simp only [availFromScan]
  omega

theorem scanSlotEvents_clean (rules : List KeywordRule) (tz : String → Option (ℕ × ℕ))
    (sMin eMin : ℕ) :
    ∀ (l : List RawEvent) (b : Finset ℕ) (u : ℕ),
      (∀ ev ∈ l, isAllDay ev = false) →
      (∀ ev ∈ l, overlaps sMin eMin (isoToMinutes tz ev.start) (isoToMinutes tz ev.endTime) = true →
        (classifyEventToCourts rules ev).blockBoth = false) →
      scanSlotEvents rules tz sMin eMin l b u =
        (b ∪ knownUnion rules (overlapEvents tz sMin eMin l),
         u + unknownCountOf rules (overlapEvents tz sMin eMin l)) := by
  intro l
  induction l with
  | nil =>
    intro b u _ _
    simp [scanSlotEvents, overlapEvents, knownUnion, unknownCountOf]
  | cons ev rest ih =>
    intro b u hday hblock
    have hd : isAllDay ev = false := hday ev (List.mem_cons_self _ _)
    have hday' : ∀ e ∈ rest, isAllDay e = false := fun e he => hday e (List.mem_cons_of_mem _ he)
    have hblock' : ∀ e ∈ rest,
        overlaps sMin eMin (isoToMinutes tz e.start) (isoToMinutes tz e.endTime) = true →
        (classifyEventToCourts rules e).blockBoth = false :=
      fun e he => hblock e (List.mem_cons_of_mem _ he)
    simp only [scanSlotEvents, hd, Bool.false_eq_true, if_false]
    by_cases ho : overlaps sMin eMin (isoToMinutes tz ev.start) (isoToMinutes tz ev.endTime) = true
    · have hb : (classifyEventToCourts rules ev).blockBoth = false :=
        hblock ev (List.mem_cons_self _ _) ho
      simp only [ho, if_true, hb, Bool.false_eq_true, if_false]
      have hfil : overlapEvents tz sMin eMin (ev :: rest) = ev :: overlapEvents tz sMin eMin rest := by
        simp [overlapEvents, List.filter_cons, ho]
      cases hk : (classifyEventToCourts rules ev).kind with
      | known =>
        rw [ih (insertCourts b (classifyEventToCourts rules ev).courts) u hday' hblock']
        rw [hfil]
        simp only [knownUnion, unknownCountOf, hk, List.countP_cons, Prod.mk.injEq]
        exact ⟨by rw [insertCourts_eq_union, Finset.union_assoc], by simp⟩
      | unknownSingle =>
        rw [ih b (u + 1) hday' hblock']
        rw [hfil]
        simp only [knownUnion, unknownCountOf, hk, List.countP_cons, Prod.mk.injEq]
        refine ⟨by simp, ?_⟩
        simp only [if_pos]
        omega
    · have ho' : overlaps sMin eMin (isoToMinutes tz ev.start) (isoToMinutes tz ev.endTime) = false := by
        cases h : overlaps sMin eMin (isoToMinutes tz ev.start) (isoToMinutes tz ev.endTime)
        · rfl
        · exact absurd h ho
      simp only [ho', Bool.false_eq_true, if_false]
      rw [ih b u hday' hblock']
      have hfil : overlapEvents tz sMin eMin (ev :: rest) = overlapEvents tz sMin eMin rest := by
        simp only [overlapEvents, List.filter_cons]
        simp [ho']
      rw [hfil]

theorem scanSlotEvents_allday (rules : List KeywordRule) (tz : String → Option (ℕ × ℕ))
    (sMin eMin : ℕ) :
    ∀ (l : List RawEvent) (b : Finset ℕ) (u : ℕ),
      (∃ ev ∈ l, isAllDay ev = true) →
      availFromScan (scanSlotEvents rules tz sMin eMin l b u) = 0 := by
  intro l
  induction l with
  | nil => rintro b u ⟨ev, hev, _⟩; cases hev
  | cons ev rest ih =>
    rintro b u ⟨e, he, hall⟩
    by_cases hd : isAllDay ev = true
    · simp only [scanSlotEvents, hd, if_true]
      decide
    · have hd' : isAllDay ev = false := by
        cases h : isAllDay ev
        · rfl
        · exact absurd h hd
      have he' : e ∈ rest := by
        rcases List.mem_cons.mp he with h | h
        · subst h; exact absurd hall hd
        · exact h
      simp only [scanSlotEvents, hd', Bool.false_eq_true, if_false]
      by_cases ho : overlaps sMin eMin (isoToMinutes tz ev.start) (isoToMinutes tz ev.endTime) = true
      · simp only [ho, if_true]
        by_cases hb : (classifyEventToCourts rules ev).blockBoth = true
        · simp only [hb, if_true]
          decide
        · have hb' : (classifyEventToCourts rules ev).blockBoth = false := by
            cases h : (classifyEventToCourts rules ev).blockBoth
            · rfl
            · exact absurd h hb
          simp only [hb', Bool.false_eq_true, if_false]
          cases hk : (classifyEventToCourts rules ev).kind with
          | known => exact ih _ _ ⟨e, he', hall⟩
          | unknownSingle => exact ih _ _ ⟨e, he', hall⟩
      · simp only [ho, if_false]
        exact ih _ _ ⟨e, he', hall⟩

theorem scanSlotEvents_append_le (rules : List KeywordRule) (tz : String → Option (ℕ × ℕ))
    (sMin eMin : ℕ) (e : RawEvent) :
    ∀ (l : List RawEvent) (b : Finset ℕ) (u : ℕ),
      availFromScan (scanSlotEvents rules tz sMin eMin (l ++ [e]) b u) ≤
        availFromScan (scanSlotEvents rules tz sMin eMin l b u) := by
  intro l
  induction l with
  | nil =>
    intro b u
    simp only [List.nil_append]
    simp only [scanSlotEvents]
    by_cases hd : isAllDay e = true
    · simp only [hd, if_true]
      rw [availFromScan_eq, availFromScan_eq]
      have : ({1, 2} : Finset ℕ).card = 2 := by decide
      omega
    · have hd' : isAllDay e = false := by
        cases h : isAllDay e
        · rfl
        · exact absurd h hd
      simp only [hd', Bool.false_eq_true, if_false]
      by_cases ho : overlaps sMin eMin (isoToMinutes tz e.start) (isoToMinutes tz e.endTime) = true
      · simp only [ho, if_true]
        by_cases hb : (classifyEventToCourts rules e).blockBoth = true
        · simp only [hb, if_true]
          rw [availFromScan_eq, availFromScan_eq]
          have : ({1, 2} : Finset ℕ).card = 2 := by decide
          omega
        · have hb' : (classifyEventToCourts rules e).blockBoth = false := by
            cases h : (classifyEventToCourts rules e).blockBoth
            · rfl
            · exact absurd h hb
          simp only [hb', Bool.false_eq_true, if_false]
          cases hk : (classifyEventToCourts rules e).kind with
          | known =>
            simp only [scanSlotEvents]
            rw [availFromScan_eq, availFromScan_eq]
            have hsub : b ⊆ insertCourts b (classifyEventToCourts rules e).courts := by
              rw [insertCourts_eq_union]
              exact Finset.subset_union_left
            have := Finset.card_le_card hsub
            omega
          | unknownSingle =>
            simp only [scanSlotEvents]
            rw [availFromScan_eq, availFromScan_eq]
            omega
      · simp only [ho, if_false]
        simp [scanSlotEvents]
  | cons x l ih =>
    intro b u
    simp only [List.cons_append, scanSlotEvents]
    by_cases hd : isAllDay x = true
    · simp [hd]
    · have hd' : isAllDay x = false := by
        cases h : isAllDay x
        · rfl
        · exact absurd h hd
      simp only [hd', Bool.false_eq_true, if_false]
      by_cases ho : overlaps sMin eMin (isoToMinutes tz x.start) (isoToMinutes tz x.endTime) = true
      · simp only [ho, if_true]
        by_cases hb : (classifyEventToCourts rules x).blockBoth = true
        · simp [hb]
        · have hb' : (classifyEventToCourts rules x).blockBoth = false := by
            cases h : (classifyEventToCourts rules x).blockBoth
            · rfl
            · exact absurd h hb
          simp only [hb', Bool.false_eq_true, if_false]
          cases hk : (classifyEventToCourts rules x).kind with
          | known => exact ih _ _
          | unknownSingle => exact ih _ _
      · simp only [ho, if_false]
        exact ih _ _

theorem hm_pad_of_lt : ∀ h : ℕ, h < 24 → hmToMinutes (pad h ++ ":" ++ pad 0) = h * 60 := by
  decide

theorem pad_ne_2230 : ∀ h : ℕ, h < 24 → ((pad h ++ ":" ++ pad 0) == "22:30") = false := by
  decide

theorem mem_generateSlots {date : String} {dur : ℕ} {s : Slot}
    (hs : s ∈ generateSlots date dur) :
    ∃ t : ℕ, t % 60 = 0 ∧
      (if isWeekend date then 9 else 17) * 60 ≤ t ∧
      t + dur ≤ (if isWeekend date then 19 else 23) * 60 ∧
      s = slotOf t dur := by
  simp only [generateSlots, List.mem_map, List.mem_range] at hs
  obtain ⟨k, hk, hslot⟩ := hs
  set sh := (if isWeekend date then 9 else 17) with hsh
  set eh := (if isWeekend date then 19 else 23) with heh
  refine ⟨sh * 60 + 60 * k, ?_, ?_, ?_, hslot.symm⟩
  · omega
  · omega
  · by_cases hle : sh * 60 ≤ eh * 60 - dur
    · rw [if_pos hle] at hk
      have hq := Nat.div_mul_le_self (eh * 60 - dur - sh * 60) 60
      have hsh1 : 1 ≤ sh * 60 := by
        have : sh = 9 ∨ sh = 17 := by
          rw [hsh]; by_cases hw : isWeekend date <;> simp [hw]
        omega
      omega
    · rw [if_neg hle] at hk
      omega

theorem hm_slotOf_start {t dur : ℕ} (ht : t % 60 = 0) (hle : t ≤ 1380) :
    hmToMinutes (slotOf t dur).start = t := by
  have hlt : t / 60 < 24 := by omega
  have hpad := hm_pad_of_lt (t / 60) hlt
  have hstr : (slotOf t dur).start = pad (t / 60) ++ ":" ++ pad 0 := by
    simp only [slotOf]
    rw [ht]
  rw [hstr, hpad]
  omega

theorem hm_slotOf_end {t dur : ℕ} (ht : (t + dur) % 60 = 0) (hle : t + dur ≤ 1380) :
    hmToMinutes (slotOf t dur).endTime = t + dur := by
  have hlt : (t + dur) / 60 < 24 := by omega
  have hpad := hm_pad_of_lt ((t + dur) / 60) hlt
  have hstr : (slotOf t dur).endTime = pad ((t + dur) / 60) ++ ":" ++ pad 0 := by
    simp only [slotOf]
    rw [ht]
  rw [hstr, hpad]
  omega

theorem forall₂_map_map {α β γ : Type} (R : β → γ → Prop) (f : α → β) (g : α → γ) :
    ∀ l : List α, (∀ a ∈ l, R (f a) (g a)) → List.Forall₂ R (l.map f) (l.map g) := by
  intro l
  induction l with
  | nil => intro _; simp
  | cons x l ih =>
    intro h
    simp only [List.map_cons]
    exact List.Forall₂.cons (h x (List.mem_cons_self _ _))
      (ih fun a ha => h a (List.mem_cons_of_mem _ ha))

theorem generateSlots_eq_slotsFrom (date : String) (dur : ℕ) :
    generateSlots date dur =
      slotsFrom ((if isWeekend date then 9 else 17) * 60)
        ((if isWeekend date then 19 else 23) * 60) dur := rfl

theorem slotsFrom_length (first endv dur : ℕ) :
    (slotsFrom first endv dur).length =
      if first ≤ endv - dur then (endv - dur - first) / 60 + 1 else 0 := by
  simp [slotsFrom]

theorem slotsFrom_getElem (first endv dur k : ℕ) (hk : k < (slotsFrom first endv dur).length) :
    (slotsFrom first endv dur)[k] = slotOf (first + 60 * k) dur := by
  simp [slotsFrom]

theorem slotsFrom_bound (first endv dur k : ℕ) (hk : k < (slotsFrom first endv dur).length)
    (h1 : 1 ≤ first) :
    first + 60 * k ≤ endv - dur ∧ first + 60 * k + dur ≤ endv := by
  rw [slotsFrom_length] at hk
  by_cases hle : first ≤ endv - dur
  · rw [if_pos hle] at hk
    have hq := Nat.div_mul_le_self (endv - dur - first) 60
    have h60 : 60 * k ≤ 60 * ((endv - dur - first) / 60) :=
      Nat.mul_le_mul_left 60 (by omega)
    omega
  · rw [if_neg hle] at hk
    omega

theorem slotsFrom_chain_start (first endv dur : ℕ) (hf : first % 60 = 0) (h1 : 1 ≤ first)
    (he : endv ≤ 1380) :
    List.Chain' (fun a b => hmToMinutes b.start = hmToMinutes a.start + 60)
      (slotsFrom first endv dur) := by
  rw [List.chain'_iff_get]
  intro i hi
  have hi1 : i + 1 < (slotsFrom first endv dur).length := by omega
  have hi0 : i < (slotsFrom first endv dur).length := by omega
  rw [List.get_eq_getElem, List.get_eq_getElem, slotsFrom_getElem _ _ _ _ hi0,
    slotsFrom_getElem _ _ _ _ hi1]
  have hb0 := slotsFrom_bound _ _ _ _ hi0 h1
  have hb1 := slotsFrom_bound _ _ _ _ hi1 h1
  rw [hm_slotOf_start (by omega) (by omega), hm_slotOf_start (by omega) (by omega)]
  ring

theorem slotsFrom_contig (first endv : ℕ) :
    List.Chain' (fun a b => a.endTime = b.start) (slotsFrom first endv 60) := by
  rw [List.chain'_iff_get]
  intro i hi
  have hi1 : i + 1 < (slotsFrom first endv 60).length := by omega
  have hi0 : i < (slotsFrom first endv 60).length := by omega
  rw [List.get_eq_getElem, List.get_eq_getElem, slotsFrom_getElem _ _ _ _ hi0,
    slotsFrom_getElem _ _ _ _ hi1]
  have h : first + 60 * i + 60 = first + 60 * (i + 1) := by ring
  simp only [slotOf]
  rw [h]

theorem slotsFrom_nonoverlap (first endv : ℕ) (hf : first % 60 = 0) (h1 : 1 ≤ first)
    (he : endv ≤ 1380) :
    List.Pairwise (fun a b =>
      overlaps (hmToMinutes a.start) (hmToMinutes a.endTime)
        (hmToMinutes b.start) (hmToMinutes b.endTime) = false)
      (slotsFrom first endv 60) := by
  rw [List.pairwise_iff_getElem]
  intro i j hi hj hij
  rw [slotsFrom_getElem _ _ _ _ hi, slotsFrom_getElem _ _ _ _ hj]
  have hbi := slotsFrom_bound _ _ _ _ hi h1
  have hbj := slotsFrom_bound _ _ _ _ hj h1
  rw [hm_slotOf_start (by omega) (by omega), hm_slotOf_end (by omega) (by omega),
    hm_slotOf_start (by omega) (by omega), hm_slotOf_end (by omega) (by omega)]
  have hlt : ¬ (first + 60 * j < first + 60 * i + 60) := by omega
  simp [overlaps, hlt]

/-!  Claim theorems.  -/

/-- C1: for every slot of the availability computation, when the day's
event list has no all-day event (an all-day event overlaps every slot
of its day, so this is the reading of "overlapping events include no
all-day event") and no overlapping event classifies with a `blockBoth`
verdict, the returned `availableCourts` equals
`remaining - min(unknownCount, remaining)` clamped at 0, where
`remaining = max(0, 2 - card knownOccupied)`, `knownOccupied` is the
union of the court sets of the `known` verdicts of the overlapping
events, and `unknownCount` counts the overlapping `unknownSingle`
events (`specSlotAvail` spells out exactly that formula; the `max 0`
clamps are `ℕ` truncated subtraction). -/
theorem claim_C1 (rules : List KeywordRule) (tz : String → Option (ℕ × ℕ))
    (events : List RawEvent) (duration : ℕ) (date : String) (s : SlotAvail)
    (hs : s ∈ computeAvailability rules tz events duration date)
    (hday : ∀ ev ∈ events, isAllDay ev = false)
    (hblock : ∀ ev ∈ overlapEvents tz (hmToMinutes s.start) (hmToMinutes s.endTime) events,
      (classifyEventToCourts rules ev).blockBoth = false) :
    s.availableCourts =
      specSlotAvail rules tz (hmToMinutes s.start) (hmToMinutes s.endTime) events := by
  simp only [computeAvailability, List.mem_map] at hs
  obtain ⟨b, _, hb⟩ := hs
  subst hb
  simp only at hblock ⊢
  have hblock' : ∀ ev ∈ events,
      overlaps (hmToMinutes b.start) (hmToMinutes b.endTime)
        (isoToMinutes tz ev.start) (isoToMinutes tz ev.endTime) = true →
      (classifyEventToCourts rules ev).blockBoth = false := by
    intro ev hev hov
    exact hblock ev (List.mem_filter.mpr ⟨hev, hov⟩)
  rw [scanSlotEvents_clean rules tz _ _ events ∅ 0 hday hblock']
  simp only [specSlotAvail, availFromScan, Finset.empty_union, Nat.zero_add]

/-- C10: availability is monotone in the event list — appending one
more event never increases the `availableCourts` of any slot of the
availability computation (stated pointwise over the two equally-shaped
outputs with `List.Forall₂`). -/
theorem claim_C10 (rules : List KeywordRule) (tz : String → Option (ℕ × ℕ))
    (events : List RawEvent) (ev : RawEvent) (duration : ℕ) (date : String) :
    List.Forall₂ (fun a b => a.availableCourts ≤ b.availableCourts)
      (computeAvailability rules tz (events ++ [ev]) duration date)
      (computeAvailability rules tz events duration date) := by
  unfold computeAvailability
  apply forall₂_map_map
  intro s _
  simp only
  exact scanSlotEvents_append_le rules tz (hmToMinutes s.start) (hmToMinutes s.endTime) ev events ∅ 0

/-- C8: a day whose event list contains an all-day (date-only start)
event has `availableCourts = 0` in every slot of the availability
output, and every booking request for that day that passes field and
template validation is rejected as unavailable (the 409 `indisponível`
response). -/
theorem claim_C8 :
    (∀ (rules : List KeywordRule) (tz : String → Option (ℕ × ℕ))
       (events : List RawEvent) (dur : ℕ) (date : String),
      (∃ ev ∈ events, isAllDay ev = true) →
      ∀ s ∈ computeAvailability rules tz events dur date, s.availableCourts = 0) ∧
    (∀ (rules : List KeywordRule) (tz : String → Option (ℕ × ℕ))
       (date start : String) (dur : ℕ) (name phone : String) (events : List RawEvent),
      (∃ ev ∈ events, isAllDay ev = true) →
      dateValid date = true → startValid start = true → (dur = 60 ∨ dur = 120) →
      (jsTrim name == "") = false → (jsTrim phone == "") = false →
      ((generateSlots date dur).any
        (fun s => s.start == start && s.endTime == requestEndStr start dur)) = true →
      bookCore rules tz date start dur name phone events =
        .unavailable "Esse horário está indisponível.") := by
  constructor
  · intro rules tz events dur date hall s hs
    simp only [computeAvailability, List.mem_map] at hs
    obtain ⟨b, _, hb⟩ := hs
    subst hb
    simp only
    exact scanSlotEvents_allday rules tz _ _ events ∅ 0 hall
  · intro rules tz date start dur name phone events hall h1 h2 h3 h4 h5 h6
    obtain ⟨ev, hev, hevall⟩ := hall
    have hmem : ev ∈ bookSlotEvents tz (hmToMinutes start) (hmToMinutes start + dur) events := by
      apply List.mem_filter.mpr
      refine ⟨hev, ?_⟩
      rw [hevall]
      rfl
    have hany : (bookSlotEvents tz (hmToMinutes start) (hmToMinutes start + dur) events).any
        isAllDay = true :=
      List.any_eq_true.mpr ⟨ev, hmem, hevall⟩
    rcases h3 with rfl | rfl <;>
      simp only [bookCore, h1, h2, h4, h5, h6, hany, Bool.not_true, Bool.false_eq_true,
        if_false, Bool.or_self, Bool.false_or, Bool.or_false, if_true] <;>
      simp [hany]

/-- Witness for C1 at a concrete input: the 18:00–19:00 slot of
2026-01-29 with one overlapping unclassifiable event. -/
theorem claim_C1_witness :
    (⟨"18:00", "19:00", 1⟩ : SlotAvail).availableCourts =
      specSlotAvail DEFAULT_KEYWORD_MAP tzNone
        (hmToMinutes (⟨"18:00", "19:00", 1⟩ : SlotAvail).start)
        (hmToMinutes (⟨"18:00", "19:00", 1⟩ : SlotAvail).endTime) [evA] :=
  claim_C1 DEFAULT_KEYWORD_MAP tzNone [evA] 60 "2026-01-29" ⟨"18:00", "19:00", 1⟩
    (by decide) (by decide) (by decide)

/-- C2: classification of the lower-cased concatenated event text
follows the strict priority order — court-1 marker only, court-2
marker only, both markers (`blockBoth`), first matching keyword rule,
`unknownSingle` fallback.  Stated for any rule list whose configured
court numbers are 1 or 2 (the default list and any list the source's
`c === 1 || c === 2` guard accepts). -/
theorem claim_C2 (rules : List KeywordRule) (ev : RawEvent)
    (hv : ∀ r ∈ rules, r.court = 1 ∨ r.court = 2) :
    (hasQ1 (eventText ev) = true → hasQ2 (eventText ev) = false →
        classifyEventToCourts rules ev = ⟨.known, [1], false⟩) ∧
    (hasQ2 (eventText ev) = true → hasQ1 (eventText ev) = false →
        classifyEventToCourts rules ev = ⟨.known, [2], false⟩) ∧
    (hasQ1 (eventText ev) = true → hasQ2 (eventText ev) = true →
        classifyEventToCourts rules ev = ⟨.known, [1, 2], true⟩) ∧
    (∀ (pre : List KeywordRule) (r : KeywordRule) (suf : List KeywordRule),
        hasQ1 (eventText ev) = false → hasQ2 (eventText ev) = false →
        rules = pre ++ r :: suf → (∀ p ∈ pre, p.test (eventText ev) = false) →
        r.test (eventText ev) = true →
        classifyEventToCourts rules ev = ⟨.known, [r.court], false⟩) ∧
    (hasQ1 (eventText ev) = false → hasQ2 (eventText ev) = false →
        (∀ r ∈ rules, r.test (eventText ev) = false) →
        classifyEventToCourts rules ev = ⟨.unknownSingle, [], false⟩) := by
  refine ⟨?_, ?_, ?_, ?_, ?_⟩
  · intro hq1 hq2
    simp [classifyEventToCourts, hq1, hq2]
  · intro hq2 hq1
    simp [classifyEventToCourts, hq1, hq2]
  · intro hq1 hq2
    simp [classifyEventToCourts, hq1, hq2]
  · intro pre r suf hq1 hq2 hrules hpre hr
    have hrc : (r.court == 1 || r.court == 2) = true := by
      rcases hv r (by rw [hrules]; exact List.mem_append_right _ (List.mem_cons_self _ _)) with h | h <;>
        simp [h]
    have hfind : rules.find?
        (fun x => x.test (eventText ev) && (x.court == 1 || x.court == 2)) = some r := by
      rw [hrules, List.find?_append]
      have hnone : pre.find?
          (fun x => x.test (eventText ev) && (x.court == 1 || x.court == 2)) = none :=
        List.find?_eq_none.mpr (fun x hx => by simp [hpre x hx])
      rw [hnone, List.find?_cons_of_pos]
      · rfl
      · simp [hr, hrc]
    simp [classifyEventToCourts, hq1, hq2, hfind]
  · intro hq1 hq2 hno
    have hfind : rules.find?
        (fun x => x.test (eventText ev) && (x.court == 1 || x.court == 2)) = none :=
      List.find?_eq_none.mpr (fun x hx => by simp [hno x hx])
    simp [classifyEventToCourts, hq1, hq2, hfind]

/-- Reduction of `bookCore` once every validation check has passed:
the remaining behaviour is the conflict/capacity/court-choice chain
over the slot's events. -/
theorem bookCore_post_validation (rules : List KeywordRule) (tz : String → Option (ℕ × ℕ))
    (date start : String) (dur : ℕ) (name phone : String) (events : List RawEvent)
    (h1 : dateValid date = true) (h2 : startValid start = true)
    (h3 : dur = 60 ∨ dur = 120)
    (h4 : (jsTrim name == "") = false) (h5 : (jsTrim phone == "") = false)
    (h6 : ((generateSlots date dur).any
      (fun s => s.start == start && s.endTime == requestEndStr start dur)) = true) :
    bookCore rules tz date start dur name phone events =
      (if (bookSlotEvents tz (hmToMinutes start) (hmToMinutes start + dur) events).any isAllDay then
        .unavailable "Esse horário está indisponível."
      else if (bookSlotEvents tz (hmToMinutes start) (hmToMinutes start + dur) events).any
          (fun e => (classifyEventToCourts rules e).blockBoth) then
        .unavailable "Esse horário está indisponível."
      else if 2 ≤ min 2
          ((knownFold rules (bookSlotEvents tz (hmToMinutes start) (hmToMinutes start + dur) events)).card +
            unknownCountFold rules (bookSlotEvents tz (hmToMinutes start) (hmToMinutes start + dur) events)) then
        .fullyBooked "Esse horário está lotado (2 quadras ocupadas)."
      else
        .booked (([1, 2].filter (fun c => decide
              (c ∉ knownFold rules (bookSlotEvents tz (hmToMinutes start) (hmToMinutes start + dur) events)))).headD 1)
          start (requestEndStr start dur)) := by
  rcases h3 with rfl | rfl <;>
    simp only [bookCore, h1, h2, h4, h5, h6, Bool.not_true, Bool.false_eq_true, if_false,
      Bool.or_self, Bool.or_false, Bool.false_or, if_true, Nat.reduceBEq, Bool.not_false]

/-- C4: a validated booking request whose slot has no overlapping
all-day event and no `blockBoth` verdict is rejected as fully booked
exactly when `min(2, card knownOccupied + unknownCount) ≥ 2`; in
particular a slot holding exactly two `unknownSingle` events and no
known events has `availableCourts = 0` and booking it is rejected as
fully booked. -/
theorem claim_C4 :
    (∀ (rules : List KeywordRule) (tz : String → Option (ℕ × ℕ))
       (date start : String) (dur : ℕ) (name phone : String) (events : List RawEvent),
      dateValid date = true → startValid start = true → (dur = 60 ∨ dur = 120) →
      (jsTrim name == "") = false → (jsTrim phone == "") = false →
      ((generateSlots date dur).any
        (fun s => s.start == start && s.endTime == requestEndStr start dur)) = true →
      ((bookSlotEvents tz (hmToMinutes start) (hmToMinutes start + dur) events).any isAllDay) = false →
      ((bookSlotEvents tz (hmToMinutes start) (hmToMinutes start + dur) events).any
        (fun e => (classifyEventToCourts rules e).blockBoth)) = false →
      (bookCore rules tz date start dur name phone events =
          .fullyBooked "Esse horário está lotado (2 quadras ocupadas)." ↔
        2 ≤ min 2
          ((knownFold rules (bookSlotEvents tz (hmToMinutes start) (hmToMinutes start + dur) events)).card +
            unknownCountFold rules (bookSlotEvents tz (hmToMinutes start) (hmToMinutes start + dur) events)))) ∧
    (computeAvailability DEFAULT_KEYWORD_MAP tzNone [evA, evB] 60 "2026-01-29").get? 1 =
      some ⟨"18:00", "19:00", 0⟩ ∧
    knownFold DEFAULT_KEYWORD_MAP
      (bookSlotEvents tzNone (hmToMinutes "18:00") (hmToMinutes "18:00" + 60) [evA, evB]) = ∅ ∧
    unknownCountFold DEFAULT_KEYWORD_MAP
      (bookSlotEvents tzNone (hmToMinutes "18:00") (hmToMinutes "18:00" + 60) [evA, evB]) = 2 ∧
    bookCore DEFAULT_KEYWORD_MAP tzNone "2026-01-29" "18:00" 60 "a" "1" [evA, evB] =
      .fullyBooked "Esse horário está lotado (2 quadras ocupadas)." := by
  refine ⟨?_, by decide, by decide, by decide, by decide⟩
  intro rules tz date start dur name phone events h1 h2 h3 h4 h5 h6 hall hblock
  rw [bookCore_post_validation rules tz date start dur name phone events h1 h2 h3 h4 h5 h6]
  rw [hall, hblock]
  simp only [Bool.false_eq_true, if_false]
  by_cases hcond : 2 ≤ min 2
      ((knownFold rules (bookSlotEvents tz (hmToMinutes start) (hmToMinutes start + dur) events)).card +
        unknownCountFold rules (bookSlotEvents tz (hmToMinutes start) (hmToMinutes start + dur) events))
  · simp [hcond]
  · simp [hcond]

/-- C3: a validated booking request that is not rejected (no
overlapping all-day event, no `blockBoth` verdict, and
`card knownOccupied + unknownCount < 2`) succeeds, a free court
exists (the chosen court is outside `knownOccupied`), and the chosen
court is the lowest-numbered member of 1,2 outside `knownOccupied`;
in particular, with `knownOccupied` empty and exactly one overlapping
`unknownSingle` event, the booking is assigned court 1 and that
slot's `availableCourts` is 1. -/
theorem claim_C3 :
    (∀ (rules : List KeywordRule) (tz : String → Option (ℕ × ℕ))
       (date start : String) (dur : ℕ) (name phone : String) (events : List RawEvent),
      dateValid date = true → startValid start = true → (dur = 60 ∨ dur = 120) →
      (jsTrim name == "") = false → (jsTrim phone == "") = false →
      ((generateSlots date dur).any
        (fun s => s.start == start && s.endTime == requestEndStr start dur)) = true →
      ((bookSlotEvents tz (hmToMinutes start) (hmToMinutes start + dur) events).any isAllDay) = false →
      ((bookSlotEvents tz (hmToMinutes start) (hmToMinutes start + dur) events).any
        (fun e => (classifyEventToCourts rules e).blockBoth)) = false →
      (knownFold rules (bookSlotEvents tz (hmToMinutes start) (hmToMinutes start + dur) events)).card +
        unknownCountFold rules (bookSlotEvents tz (hmToMinutes start) (hmToMinutes start + dur) events) < 2 →
      (bookCore rules tz date start dur name phone events =
        .booked
          (if 1 ∈ knownFold rules (bookSlotEvents tz (hmToMinutes start) (hmToMinutes start + dur) events)
            then 2 else 1)
          start (requestEndStr start dur)) ∧
      (if 1 ∈ knownFold rules (bookSlotEvents tz (hmToMinutes start) (hmToMinutes start + dur) events)
          then 2 else 1) ∉
        knownFold rules (bookSlotEvents tz (hmToMinutes start) (hmToMinutes start + dur) events) ∧
      (∀ j : ℕ, (j = 1 ∨ j = 2) →
        j ∉ knownFold rules (bookSlotEvents tz (hmToMinutes start) (hmToMinutes start + dur) events) →
        (if 1 ∈ knownFold rules (bookSlotEvents tz (hmToMinutes start) (hmToMinutes start + dur) events)
          then 2 else 1) ≤ j)) ∧
    bookCore DEFAULT_KEYWORD_MAP tzNone "2026-01-29" "18:00" 60 "a" "1" [evA] =
      .booked 1 "18:00" "19:00" ∧
    knownFold DEFAULT_KEYWORD_MAP
      (bookSlotEvents tzNone (hmToMinutes "18:00") (hmToMinutes "18:00" + 60) [evA]) = ∅ ∧
    unknownCountFold DEFAULT_KEYWORD_MAP
      (bookSlotEvents tzNone (hmToMinutes "18:00") (hmToMinutes "18:00" + 60) [evA]) = 1 ∧
    (computeAvailability DEFAULT_KEYWORD_MAP tzNone [evA] 60 "2026-01-29").get? 1 =
      some ⟨"18:00", "19:00", 1⟩ := by
  refine ⟨?_, by decide, by decide, by decide, by decide⟩
  intro rules tz date start dur name phone events h1 h2 h3 h4 h5 h6 hall hblock hcap
  rw [bookCore_post_validation rules tz date start dur name phone events h1 h2 h3 h4 h5 h6]
  rw [hall, hblock]
  simp only [Bool.false_eq_true, if_false]
  set K := knownFold rules (bookSlotEvents tz (hmToMinutes start) (hmToMinutes start + dur) events)
    with hK
  have hcond : ¬ 2 ≤ min 2 (K.card +
      unknownCountFold rules (bookSlotEvents tz (hmToMinutes start) (hmToMinutes start + dur) events)) := by
    omega
  simp only [if_neg hcond]
  by_cases h1K : 1 ∈ K
  · have h2K : 2 ∉ K := by
      intro h2K
      have hsub : ({1, 2} : Finset ℕ) ⊆ K := by
        intro x hx
        rcases Finset.mem_insert.mp hx with rfl | hx
        · exact h1K
        · rw [Finset.mem_singleton.mp hx]; exact h2K
      have hcard := Finset.card_le_card hsub
      have h12 : ({1, 2} : Finset ℕ).card = 2 := by decide
      omega
    have hfil : ([1, 2].filter (fun c => decide (c ∉ K))) = [2] := by
      simp [List.filter, h1K, h2K]
    rw [hfil]
    refine ⟨by simp [h1K], by simp [h1K, h2K], ?_⟩
    intro j hj hjK
    rcases hj with rfl | rfl
    · exact absurd h1K hjK
    · simp [h1K]
  · have hfil : ([1, 2].filter (fun c => decide (c ∉ K))) =
        1 :: ([2].filter (fun c => decide (c ∉ K))) := by
      simp [List.filter, h1K]
    rw [hfil]
    refine ⟨by simp [h1K], by simp [h1K], ?_⟩
    intro j hj hjK
    rcases hj with rfl | rfl
    · simp [h1K]
    · simp [h1K]

/-- Witness for C2 at concrete inputs: a court-1-marker event takes
the first branch; a keyword-free event falls through to
`unknownSingle`. -/
theorem claim_C2_witness :
    classifyEventToCourts DEFAULT_KEYWORD_MAP evQ1 = ⟨.known, [1], false⟩ ∧
    classifyEventToCourts DEFAULT_KEYWORD_MAP evA = ⟨.unknownSingle, [], false⟩ :=
  ⟨(claim_C2 DEFAULT_KEYWORD_MAP evQ1 (by decide)).1 (by decide) (by decide),
   (claim_C2 DEFAULT_KEYWORD_MAP evA (by decide)).2.2.2.2 (by decide) (by decide) (by decide)⟩

/-- Witness for C3 at a concrete input: one `unknownSingle` event in
the 18:00 slot, booking succeeds on the lowest free court. -/
theorem claim_C3_witness :
    bookCore DEFAULT_KEYWORD_MAP tzNone "2026-01-29" "18:00" 60 "a" "1" [evA] =
      .booked
        (if 1 ∈ knownFold DEFAULT_KEYWORD_MAP
            (bookSlotEvents tzNone (hmToMinutes "18:00") (hmToMinutes "18:00" + 60) [evA])
          then 2 else 1)
        "18:00" (requestEndStr "18:00" 60) :=
  (claim_C3.1 DEFAULT_KEYWORD_MAP tzNone "2026-01-29" "18:00" 60 "a" "1" [evA]
    (by decide) (by decide) (Or.inl rfl) (by decide) (by decide) (by decide)
    (by decide) (by decide) (by decide)).1

/-- Witness for C4 at a concrete input: two `unknownSingle` events in
the 18:00 slot, booking is rejected as fully booked. -/
theorem claim_C4_witness :
    bookCore DEFAULT_KEYWORD_MAP tzNone "2026-01-29" "18:00" 60 "a" "1" [evA, evB] =
      .fullyBooked "Esse horário está lotado (2 quadras ocupadas)." :=
  (claim_C4.1 DEFAULT_KEYWORD_MAP tzNone "2026-01-29" "18:00" 60 "a" "1" [evA, evB]
    (by decide) (by decide) (Or.inl rfl) (by decide) (by decide) (by decide)
    (by decide) (by decide)).mpr (by decide)

/-- Every generated slot starts on the hour, so the off-grid start
`22:30` matches no template slot on any date with any duration. -/
theorem start2230_not_in_template (date : String) (dur : ℕ) :
    ((generateSlots date dur).any
      (fun s => s.start == "22:30" && s.endTime == requestEndStr "22:30" dur)) = false := by
  rw [List.any_eq_false]
  intro s hs
  obtain ⟨t, ht60, _, htend, hslot⟩ := mem_generateSlots hs
  subst hslot
  have hb : t ≤ 1380 := by
    by_cases hw : isWeekend date
    · rw [if_pos hw] at htend
      omega
    · rw [if_neg hw] at htend
      omega
  have h24 : t / 60 < 24 := by omega
  have hstart : (slotOf t dur).start = pad (t / 60) ++ ":" ++ pad 0 := by
    simp only [slotOf]
    rw [ht60]
  intro hp
  rw [Bool.and_eq_true] at hp
  have hp1 := hp.1
  rw [hstart, pad_ne_2230 (t / 60) h24] at hp1
  cases hp1

/-- C5: any booking request whose computed start/end pair matches no
member of the day's slot template is rejected with a validation error,
whatever the calendar contains (the events are not consulted before
template validation); in particular a request starting `22:30` is
always rejected, for every date, duration, name, phone and event
list. -/
theorem claim_C5 :
    (∀ (rules : List KeywordRule) (tz : String → Option (ℕ × ℕ))
       (date start : String) (dur : ℕ) (name phone : String) (events : List RawEvent),
      ((generateSlots date dur).any
        (fun s => s.start == start && s.endTime == requestEndStr start dur)) = false →
      isValidationError (bookCore rules tz date start dur name phone events) = true) ∧
    (∀ (rules : List KeywordRule) (tz : String → Option (ℕ × ℕ))
       (date : String) (dur : ℕ) (name phone : String) (events : List RawEvent),
      isValidationError (bookCore rules tz date "22:30" dur name phone events) = true) := by
  have main : ∀ (rules : List KeywordRule) (tz : String → Option (ℕ × ℕ))
      (date start : String) (dur : ℕ) (name phone : String) (events : List RawEvent),
      ((generateSlots date dur).any
        (fun s => s.start == start && s.endTime == requestEndStr start dur)) = false →
      isValidationError (bookCore rules tz date start dur name phone events) = true := by
    intro rules tz date start dur name phone events htmpl
    simp only [bookCore, htmpl, Bool.not_false]
    split_ifs <;> simp [isValidationError]
  exact ⟨main, fun rules tz date dur name phone events =>
    main rules tz date "22:30" dur name phone events (start2230_not_in_template date dur)⟩

/-- Counterexample to C6 as stated: with duration 120 the generated
slots are not non-overlapping and not contiguous — on the weekday
template the first two slots are 17:00–19:00 and 18:00–20:00, which
overlap, and the first slot's end is not the second slot's start. -/
theorem claim_C6_counterexample :
    (generateSlots "2026-01-29" 120).get? 0 = some ⟨"17:00", "19:00"⟩ ∧
    (generateSlots "2026-01-29" 120).get? 1 = some ⟨"18:00", "20:00"⟩ ∧
    overlaps (hmToMinutes "17:00") (hmToMinutes "19:00")
      (hmToMinutes "18:00") (hmToMinutes "20:00") = true ∧
    ("19:00" : String) ≠ "18:00" := by
  refine ⟨by decide, by decide, by decide, by decide⟩

/-- C6 (amended): for every date and duration 60 or 120, the slot
template is an ordered sequence of hourly-aligned slots — start
minutes are multiples of 60, consecutive starts differ by exactly 60,
each slot spans exactly the duration, and no slot's end exceeds the
closing time of the date's window; the slots are contiguous and
non-overlapping when the duration is 60 (for duration 120 consecutive
slots overlap, see the counterexample). -/
theorem claim_C6 (date : String) (dur : ℕ) (hdur : dur = 60 ∨ dur = 120) :
    (∀ s ∈ generateSlots date dur,
      hmToMinutes s.start % 60 = 0 ∧
      hmToMinutes s.endTime = hmToMinutes s.start + dur ∧
      hmToMinutes s.endTime ≤ (if isWeekend date then 19 else 23) * 60) ∧
    List.Chain' (fun a b => hmToMinutes b.start = hmToMinutes a.start + 60)
      (generateSlots date dur) ∧
    (dur = 60 → List.Chain' (fun a b => a.endTime = b.start) (generateSlots date dur)) ∧
    (dur = 60 → List.Pairwise (fun a b =>
        overlaps (hmToMinutes a.start) (hmToMinutes a.endTime)
          (hmToMinutes b.start) (hmToMinutes b.endTime) = false)
      (generateSlots date dur)) := by
  have hf : ((if isWeekend date then 9 else 17) * 60) % 60 = 0 := by
    by_cases hw : isWeekend date <;> simp [hw]
  have h1 : 1 ≤ (if isWeekend date then 9 else 17) * 60 := by
    by_cases hw : isWeekend date <;> simp [hw]
  have he : (if isWeekend date then 19 else 23) * 60 ≤ 1380 := by
    by_cases hw : isWeekend date <;> simp [hw]
  refine ⟨?_, ?_, ?_, ?_⟩
  · intro s hs
    obtain ⟨t, ht60, hts, hte, rfl⟩ := mem_generateSlots hs
    have hd60 : dur % 60 = 0 := by rcases hdur with rfl | rfl <;> rfl
    have hbound : t + dur ≤ 1380 := by omega
    rw [hm_slotOf_start (by omega) (by omega), hm_slotOf_end (by omega) (by omega)]
    exact ⟨by omega, rfl, hte⟩
  · rw [generateSlots_eq_slotsFrom]
    exact slotsFrom_chain_start _ _ _ hf h1 he
  · rintro rfl
    rw [generateSlots_eq_slotsFrom]
    exact slotsFrom_contig _ _
  · rintro rfl
    rw [generateSlots_eq_slotsFrom]
    exact slotsFrom_nonoverlap _ _ hf h1 he

/-- Witness for C6 at a concrete input: the weekday one-hour template
of 2026-01-29 is an hourly chain and pairwise non-overlapping. -/
theorem claim_C6_witness :
    List.Chain' (fun a b => hmToMinutes b.start = hmToMinutes a.start + 60)
      (generateSlots "2026-01-29" 60) ∧
    List.Pairwise (fun a b =>
      overlaps (hmToMinutes a.start) (hmToMinutes a.endTime)
        (hmToMinutes b.start) (hmToMinutes b.endTime) = false)
      (generateSlots "2026-01-29" 60) :=
  ⟨(claim_C6 "2026-01-29" 60 (Or.inl rfl)).2.1,
   (claim_C6 "2026-01-29" 60 (Or.inl rfl)).2.2.2 rfl⟩

/-- C7: the template uses the 17:00–23:00 window on weekdays and the
09:00–19:00 window on weekend days; a date is a weekend day exactly
when its civil day-of-week is Sunday (0) or Saturday (6); for the
Thursday 2026-01-29 with duration 60 and no events the output is the
six slots 17:00 through 22:00, each with two available courts; and on
the Saturday 2026-01-31 a 09:00 start passes template validation and
books while a 20:00 start is rejected by template validation. -/
theorem claim_C7 :
    (∀ (s : String) (y m d : List Char) (rest : List (List Char)) (yn mn dn : ℕ),
      splitOnChar '-' s.data = y :: m :: d :: rest →
      digitsToNat? y = some yn → digitsToNat? m = some mn → digitsToNat? d = some dn →
      (isWeekend s = true ↔ (dayOfWeek yn mn dn = 0 ∨ dayOfWeek yn mn dn = 6))) ∧
    (∀ (date : String) (dur : ℕ), dur = 60 ∨ dur = 120 →
      ∀ s ∈ generateSlots date dur,
        (isWeekend date = false →
          17 * 60 ≤ hmToMinutes s.start ∧ hmToMinutes s.endTime ≤ 23 * 60) ∧
        (isWeekend date = true →
          9 * 60 ≤ hmToMinutes s.start ∧ hmToMinutes s.endTime ≤ 19 * 60)) ∧
    dayOfWeek 2026 1 29 = 4 ∧ isWeekend "2026-01-29" = false ∧
    (∀ (rules : List KeywordRule) (tz : String → Option (ℕ × ℕ)),
      computeAvailability rules tz [] 60 "2026-01-29" =
        [⟨"17:00", "18:00", 2⟩, ⟨"18:00", "19:00", 2⟩, ⟨"19:00", "20:00", 2⟩,
         ⟨"20:00", "21:00", 2⟩, ⟨"21:00", "22:00", 2⟩, ⟨"22:00", "23:00", 2⟩]) ∧
    dayOfWeek 2026 1 31 = 6 ∧ isWeekend "2026-01-31" = true ∧
    (∀ (rules : List KeywordRule) (tz : String → Option (ℕ × ℕ)),
      bookCore rules tz "2026-01-31" "09:00" 60 "a" "1" [] = .booked 1 "09:00" "10:00") ∧
    (∀ (rules : List KeywordRule) (tz : String → Option (ℕ × ℕ)) (events : List RawEvent),
      bookCore rules tz "2026-01-31" "20:00" 60 "a" "1" events =
        .validationError "Horário inválido para esse dia.") := by
  refine ⟨?_, ?_, by decide, by decide, ?_, by decide, by decide, ?_, ?_⟩
  · intro s y m d rest yn mn dn hsplit hy hm hd
    simp only [isWeekend, hsplit, hy, hm, hd]
    constructor
    · intro h
      rcases Bool.or_eq_true_iff.mp h with h | h
      · exact Or.inl (by simpa using h)
      · exact Or.inr (by simpa using h)
    · rintro (h | h) <;> simp [h]

  · intro date dur hdur s hs
    obtain ⟨t, ht60, hts, hte, rfl⟩ := mem_generateSlots hs
    have hd60 : dur % 60 = 0 := by rcases hdur with rfl | rfl <;> rfl
    constructor
    · intro hw
      rw [hw] at hts hte
      simp only [Bool.false_eq_true, if_false] at hts hte
      rw [hm_slotOf_start (by omega) (by omega), hm_slotOf_end (by omega) (by omega)]
      omega
    · intro hw
      rw [hw] at hts hte
      simp only [if_true] at hts hte
      rw [hm_slotOf_start (by omega) (by omega), hm_slotOf_end (by omega) (by omega)]
      omega
  · intro rules tz
    rfl
  · intro rules tz
    rfl
  · intro rules tz events
    rfl

/-- Witness for C7 at concrete inputs: the weekend-predicate and
window components applied to 2026-01-29. -/
theorem claim_C7_witness :
    (isWeekend "2026-01-29" = true ↔
      (dayOfWeek 2026 1 29 = 0 ∨ dayOfWeek 2026 1 29 = 6)) ∧
    (17 * 60 ≤ hmToMinutes (Slot.start ⟨"17:00", "18:00"⟩) ∧
      hmToMinutes (Slot.endTime ⟨"17:00", "18:00"⟩) ≤ 23 * 60) :=
  ⟨claim_C7.1 "2026-01-29" "2026".data "01".data "29".data [] 2026 1 29
      (by decide) (by decide) (by decide) (by decide),
   (claim_C7.2.1 "2026-01-29" 60 (Or.inl rfl) ⟨"17:00", "18:00"⟩ (by decide)).1 (by decide)⟩

/-- Witness for C5 at a concrete input: a 10:00 start on a weekday
(template 17:00–23:00) is rejected with a validation error. -/
theorem claim_C5_witness :
    isValidationError
      (bookCore DEFAULT_KEYWORD_MAP tzNone "2026-01-29" "10:00" 60 "a" "1" []) = true :=
  claim_C5.1 DEFAULT_KEYWORD_MAP tzNone "2026-01-29" "10:00" 60 "a" "1" [] (by decide)

/-- Counterexample to C9 as stated.  The string
`2026-01-29 18:00:00-03:00` carries an explicit trailing numeric UTC
offset (per the spec's words, `specCarriesOffset`), yet the conversion
does not read the time fields directly: the offset regex requires a
`T`-prefixed time, so the timezone-conversion branch is consulted and
different timezone conversions yield different results (not
`18*60`).  And `aa 12:34` contains a bare first `HH:MM` pattern
(`specFirstBareHM`), yet when the offset form and the timezone
conversion both fail the function returns 0, because the fallback
regex also requires the leading `T`. -/
theorem claim_C9_counterexample :
    specCarriesOffset "2026-01-29 18:00:00-03:00" = true ∧
    isoToMinutes (fun _ => some (21, 0)) "2026-01-29 18:00:00-03:00" = 21 * 60 ∧
    isoToMinutes (fun _ => some (5, 30)) "2026-01-29 18:00:00-03:00" = 5 * 60 + 30 ∧
    (21 * 60 : ℕ) ≠ 18 * 60 ∧
    specFirstBareHM ("aa 12:34").data = some (12, 34) ∧
    isoToMinutes tzNone "aa 12:34" = 0 := by
  refine ⟨by decide, by decide, by decide, by decide, by decide, by decide⟩

/-- C9 (amended): for every string matched by the offset regex — a
`T`-prefixed `HH:MM` time field followed, with no intervening line
terminator, by a trailing numeric UTC offset at the very end of the
string — the conversion returns `60*HH + MM` read directly from the
matched fields, independent of the timezone oracle (no timezone
conversion); and whenever the offset regex does not match and the
timezone conversion does not apply, it falls back to the first
`T`-prefixed `HH:MM` pattern, returning minute 0 when none exists. -/
theorem claim_C9 (tz tz2 : String → Option (ℕ × ℕ)) (s : String) :
    (∀ h m : ℕ, offsetMatch s = some (h, m) →
      isoToMinutes tz s = 60 * h + m ∧ isoToMinutes tz s = isoToMinutes tz2 s) ∧
    (offsetMatch s = none → tz s = none →
      isoToMinutes tz s =
        (match fallbackHM s.toList with
          | some (h, m) => 60 * h + m
          | none => 0)) := by
  constructor
  · intro h m hoff
    constructor
    · simp only [isoToMinutes, hoff]
      ring
    · simp only [isoToMinutes, hoff]
  · intro hoff htz
    rcases hfb : fallbackHM s.toList with _ | ⟨h, m⟩
    · simp only [isoToMinutes, hoff, htz, hfb]
    · simp only [isoToMinutes, hoff, htz, hfb]
      ring

/-- Witness for C9 at concrete inputs: an offset-form timestamp reads
its fields directly, and an unparseable string uses the `T`-prefixed
fallback. -/
theorem claim_C9_witness :
    isoToMinutes tzNone "2026-01-29T18:30:00-03:00" = 60 * 18 + 30 ∧
    isoToMinutes tzNone "nonsense T12:34 garbage" =
      (match fallbackHM ("nonsense T12:34 garbage").toList with
        | some (h, m) => 60 * h + m
        | none => 0) :=
  ⟨((claim_C9 tzNone (fun _ => some (5, 0)) "2026-01-29T18:30:00-03:00").1 18 30 (by decide)).1,
   (claim_C9 tzNone tzNone "nonsense T12:34 garbage").2 (by decide) rfl⟩

/-- Witness for C8 at a concrete input: an all-day event on 2026-01-29
blocks a validated 18:00 booking with the `indisponível` rejection. -/
theorem claim_C8_witness :
    bookCore DEFAULT_KEYWORD_MAP tzNone "2026-01-29" "18:00" 60 "a" "1" [evD] =
      .unavailable "Esse horário está indisponível." :=
  claim_C8.2 DEFAULT_KEYWORD_MAP tzNone "2026-01-29" "18:00" 60 "a" "1" [evD]
    ⟨evD, by decide, by decide⟩ (by decide) (by decide) (Or.inl rfl)
    (by decide) (by decide) (by decide)

end RepublicaAPI
